import Mathlib

/-!
Verification of the ijq core (src/main.go) against its specification.

The Go source is embedded shallowly: pure helpers become Lean functions,
the external evaluation engine becomes an explicit parameter mapping an
argument list and a standard-input string to an outcome, the TUI display
becomes an explicit state record, and the two event callbacks of the
filter input field (changed, autocomplete) become state-transition
functions.  File and standard-input access are passed in as explicit
lookup functions.
-/

set_option autoImplicit false

namespace Ijq

/-- Evaluation options, from the Options struct (src/main.go lines 41-50). -/
structure Options where
  compact : Bool
  nullInput : Bool
  slurp : Bool
  rawOutput : Bool
  rawInput : Bool
  monochrome : Bool
  sortKeys : Bool
  historyFile : String
  deriving DecidableEq

/-- Membership test on the history list, from contains (src/main.go lines 52-60). -/
def contains (arr : List String) (elem : String) : Bool :=
  match arr with
  | [] => false
  | v :: rest => if elem = v then true else contains rest elem

/-- Argument list derived from the options, from Options.ToSlice
(src/main.go lines 62-93).  Note the color flag -C is added when
monochrome is NOT set. -/
def Options.ToSlice (o : Options) : List String :=
  (if o.compact then ["-c"] else []) ++
  (if o.nullInput then ["-n"] else []) ++
  (if o.slurp then ["-s"] else []) ++
  (if o.rawOutput then ["-r"] else []) ++
  (if o.rawInput then ["-R"] else []) ++
  (if !o.monochrome then ["-C"] else []) ++
  (if o.sortKeys then ["-S"] else [])

/-- A document: the raw input text plus the active options
(src/main.go lines 100-103). -/
structure Document where
  input : String
  options : Options
  deriving DecidableEq

/-- Reading one file into the document, from Document.FromFile
(src/main.go lines 105-113).  The file system is modelled as a lookup
from file name to optional contents; an unreadable file is an error.
The document input is OVERWRITTEN with the file contents. -/
def FromFile (fs : String → Option String) (d : Document) (filename : String) :
    Except String Document :=
  match fs filename with
  | none => Except.error filename
  | some contents => Except.ok { d with input := contents }

/-- Reading piped standard input, from Document.FromStdin
(src/main.go lines 115-129).  none models a terminal with nothing piped
(the "no data on stdin" error branch). -/
def FromStdin (stdin : Option String) (d : Document) : Except String Document :=
  match stdin with
  | none => Except.error "no data on stdin"
  | some s => Except.ok { d with input := s }

/-- The file-argument loop inside Document.Read (src/main.go lines 136-141):
each file is read in order, and the first failure aborts. -/
def readFiles (fs : String → Option String) (d : Document) :
    List String → Except String Document
  | [] => Except.ok d
  | f :: rest =>
    match FromFile fs d f with
    | Except.error e => Except.error e
    | Except.ok d2 => readFiles fs d2 rest

/-- Document construction, from Document.Read (src/main.go lines 131-149):
null-input mode returns immediately; otherwise a non-empty argument list
is read file by file, and an empty one falls back to standard input. -/
def Document.Read (d : Document) (fs : String → Option String)
    (stdin : Option String) (args : List String) : Except String Document :=
  if d.options.nullInput then Except.ok d
  else
    match args with
    | [] => FromStdin stdin d
    | f :: rest => readFiles fs d (f :: rest)

/-- Outcome of one invocation of the external engine process:
either the process could not be spawned at all, or it ran to completion
with an exit status and its combined stdout/stderr stream. -/
inductive EngineOutcome where
  | cannotStart
  | exited (status : Nat) (combinedOutput : String)
  deriving DecidableEq

/-- An engine is a function from the argument list and the text fed to its
standard input to an outcome.  The Go code always invokes the fixed binary
name, so the binary name is implicit in the function. -/
def Engine : Type := List String → String → EngineOutcome

/-- Errors returned by Document.Filter, mirroring the Go error values:
spawnError covers a failure to start the process (exec.Error, or a
StdinPipe failure); exitError is exec.ExitError, whose Stderr field the
code sets to the combined output (src/main.go lines 166-171). -/
inductive FilterError where
  | spawnError
  | exitError (status : Nat) (stderr : String)
  deriving DecidableEq

/-- One evaluation, from Document.Filter (src/main.go lines 151-177):
run the engine with the option flags plus the filter as final argument,
feeding the document text to its standard input.  Exit status 0 yields
the combined output; a non-zero status yields an exitError carrying the
combined output verbatim; a spawn failure yields spawnError. -/
def Document.Filter (d : Document) (filt : String) (engine : Engine) :
    Except FilterError String :=
  match engine (d.options.ToSlice ++ [filt]) d.input with
  | EngineOutcome.cannotStart => Except.error FilterError.spawnError
  | EngineOutcome.exited s out =>
    if s = 0 then Except.ok out else Except.error (FilterError.exitError s out)

/-- Visual state of the filter input field: silver (neutral) or maroon
(error), from the SetFieldTextColor calls (src/main.go lines 314, 323). -/
inductive InputStyle where
  | neutral
  | error
  deriving DecidableEq

/-- The on-screen state the core mutates: the input pane, the output pane,
the error pane, and the input-field style.  Each tview Clear sets the
corresponding text to empty and each write appends. -/
structure DisplayState where
  inputPane : String
  output : String
  errorText : String
  inputStyle : InputStyle
  deriving DecidableEq

/-- Whether the process is still running or has exited fatally
(log.Fatalln exits with a non-zero status). -/
inductive ProcessStatus where
  | running
  | exitedFatal
  deriving DecidableEq

/-- The body of the queued update spawned by the filter-changed callback
(src/main.go lines 309-328).  It runs atomically on the UI event loop:
clear the error pane, evaluate, and then either (on error) set the error
style and show the exitError diagnostic (a spawn error shows nothing), or
(on success) set the neutral style, clear the output pane and write the
new output.  The output pane is untouched on the error path, and no
branch terminates the process. -/
def onFilterChanged (d : Document) (engine : Engine) (text : String)
    (st : DisplayState) : DisplayState × ProcessStatus :=
  let st1 : DisplayState := { st with errorText := "" }
  match d.Filter text engine with
  | Except.error e =>
    match e with
    | FilterError.exitError _ diag =>
      ({ st1 with inputStyle := InputStyle.error, errorText := diag },
       ProcessStatus.running)
    | FilterError.spawnError =>
      ({ st1 with inputStyle := InputStyle.error }, ProcessStatus.running)
  | Except.ok out =>
    ({ st1 with inputStyle := InputStyle.neutral, output := out },
     ProcessStatus.running)

/-- The startup goroutine (src/main.go lines 398-411): evaluate the
identity filter; an error there is log.Fatalln, ending the process.
Otherwise evaluate the initial filter; an error only sets the error
style (and the empty output written afterwards leaves the pane as it
was), while a success appends the result to the output pane.  The
identity result is appended to the input pane in both cases. -/
def startupRender (d : Document) (engine : Engine) (filt : String)
    (st : DisplayState) : DisplayState × ProcessStatus :=
  match d.Filter "." engine with
  | Except.error _ => (st, ProcessStatus.exitedFatal)
  | Except.ok orig =>
    match d.Filter filt engine with
    | Except.error _ =>
      ({ st with inputStyle := InputStyle.error,
                 inputPane := st.inputPane ++ orig }, ProcessStatus.running)
    | Except.ok out =>
      ({ st with inputPane := st.inputPane ++ orig,
                 output := st.output ++ out }, ProcessStatus.running)

/-- Each keystroke spawns a goroutine that enqueues one update closure on
the UI event loop; Go gives no guarantee on the order in which racing
goroutines enqueue, so the closures run in some permutation of issue
order.  runSchedule applies the updates for the requests texts[i] in the
order given by schedule. -/
def runSchedule (d : Document) (engine : Engine) (texts : List String)
    (schedule : List Nat) (st : DisplayState) : DisplayState :=
  match schedule with
  | [] => st
  | i :: rest =>
    runSchedule d engine texts rest (onFilterChanged d engine (texts.getD i "") st).1

/-- The commit path of the done-callback (src/main.go lines 329-342) as it
affects the persisted history: the committed expression is appended to
the history file exactly when it is non-empty and not already contained
in the loaded history list.  Since commit ends the session and the next
session reloads the file, the returned list is the history the next
session sees. -/
def commitHistory (history : List String) (expression : String) : List String :=
  if expression ≠ "" ∧ contains history expression = false
  then history ++ [expression] else history

/-- Index of the last dot in a character list, modelling
strings.LastIndexByte(text, 46) (src/main.go line 348) for ASCII text,
where byte and character indices coincide. -/
def lastDotIndexAux : List Char → Option Nat
  | [] => none
  | c :: rest =>
    match lastDotIndexAux rest with
    | some i => some (i + 1)
    | none => if c = '.' then some 0 else none

/-- Index of the last dot in a string, none when there is no dot. -/
def lastDotIndex (s : String) : Option Nat :=
  lastDotIndexAux s.toList

/-- The Go slice text[0:pos] for a character index pos. -/
def takePfx (s : String) (n : Nat) : String :=
  String.mk (s.toList.take n)

/-- JSON values, as needed to model the completion fetch.  The fetch
goroutine (src/main.go lines 358-389) evaluates, against the document
and with only the monochrome option set, the engine program
"[" ++ filt ++ "] | unique | first" where filt is the stored pfx
followed by "| keys" (or just "keys" for an empty pfx), and then decodes
the output as a JSON list of strings. -/
inductive Json where
  | null
  | bool (b : Bool)
  | num (n : Int)
  | str (s : String)
  | arr (elems : List Json)
  | obj (fields : List (String × Json))

/-- Codepoint comparison of character lists: lexicographic, a strict
prefix below its extensions (the string order of the engine). -/
def charListLtB : List Char → List Char → Bool
  | [], [] => false
  | [], _ :: _ => true
  | _ :: _, [] => false
  | a :: as, b :: bs =>
    if a.toNat < b.toNat then true
    else if b.toNat < a.toNat then false
    else charListLtB as bs

/-- Codepoint comparison of strings. -/
def strLtB (a b : String) : Bool :=
  charListLtB a.toList b.toList

/-- Sorted insertion of a string, dropping duplicates (string order of
the engine). -/
def insertStr (x : String) : List String → List String
  | [] => [x]
  | y :: ys =>
    if strLtB x y then x :: y :: ys
    else if x = y then y :: ys
    else y :: insertStr x ys

/-- Sort a list of strings and drop duplicates. -/
def sortDedupStr (l : List String) : List String :=
  l.foldr insertStr []

/-- The keys builtin of the engine applied to one value, composed with the
string-list decoding done by json.Unmarshal (src/main.go line 373): an
object yields its sorted field names; any other value is modelled as a
failure, because the engine errors on scalars and null (non-zero exit,
fetch dropped at line 368) and an array yields numeric keys that the
string-list decoding rejects (fetch dropped at line 374).  The corner
case of an empty array, whose empty key list would decode, is not
distinguished. -/
def jqKeys : Json → Option (List String)
  | Json.obj fields => some (sortDedupStr (fields.map Prod.fst))
  | _ => none

/-- The engine order on key lists (arrays of strings): element-wise
string comparison, a strict prefix ordering below its extensions. -/
def keyListLt : List String → List String → Bool
  | [], [] => false
  | [], _ :: _ => true
  | _ :: _, [] => false
  | a :: as, b :: bs =>
    if strLtB a b then true else if strLtB b a then false else keyListLt as bs

/-- Sorted insertion of a key list, dropping duplicates. -/
def insertKeyList (x : List String) : List (List String) → List (List String)
  | [] => [x]
  | y :: ys =>
    if keyListLt x y then x :: y :: ys
    else if x = y then y :: ys
    else y :: insertKeyList x ys

/-- The engine builtin unique: sort and drop duplicates. -/
def sortDedupKeyLists (ls : List (List String)) : List (List String) :=
  ls.foldr insertKeyList []

/-- Key extraction over the whole stream (the collecting brackets of the
fetch program): the key list of each value in order, failing as soon as
one value fails. -/
def mapKeys : List Json → Option (List (List String))
  | [] => some []
  | v :: vs =>
    match jqKeys v, mapKeys vs with
    | some ks, some rest => some (ks :: rest)
    | _, _ => none

/-- Result of the whole fetch program on the stream of values the stored
pfx produces from the document: collect the keys of every value, apply
unique, and take the first element (first of an empty collection is
null, which decodes to an empty key list).  none models a dropped fetch. -/
def fetchKeys (stream : List Json) : Option (List String) :=
  (mapKeys stream).map (fun kls => (sortDedupKeyLists kls).headD [])

/-- Candidate construction (src/main.go lines 377-380): one entry per key,
the stored pfx, a dot, then the key. -/
def buildCandidates (pfx : String) (ks : List String) : List String :=
  ks.map (fun k => pfx ++ "." ++ k)

/-- The complete fetch: key extraction followed by candidate
construction. -/
def suggestionFetch (pfx : String) (stream : List Json) : Option (List String) :=
  (fetchKeys stream).map (buildCandidates pfx)

/-- Key derivation as the specification words it: the deduplicated keys of
EVERY value of the stream (the union of all key sets, first occurrences
kept in stream order). -/
def specFetchKeys (stream : List Json) : Option (List String) :=
  (mapKeys stream).map (fun kls => kls.flatten.dedup)

/-- Candidate derivation as the specification words it. -/
def specSuggestionFetch (pfx : String) (stream : List Json) : Option (List String) :=
  (specFetchKeys stream).map (buildCandidates pfx)

/-- State of the suggestion machinery: the cache (filterMap, an
association list where an insertion shadows earlier entries) and a
counter of fetch goroutines spawned so far. -/
structure AcState where
  cache : List (String × List String)
  fetchCount : Nat
  deriving DecidableEq

/-- The autocomplete callback (src/main.go lines 343-393): with empty text
and non-empty history, return the history; otherwise, when the text has a
dot, look the pfx (text truncated before the last dot) up in the cache,
returning a hit immediately, and on a miss spawn one fetch goroutine and
return nothing. -/
def autocompleteStep (history : List String) (text : String) (st : AcState) :
    List String × AcState :=
  if text = "" ∧ history ≠ [] then (history, st)
  else
    match lastDotIndex text with
    | none => ([], st)
    | some pos =>
      match List.lookup (takePfx text pos) st.cache with
      | some entries => (entries, st)
      | none => ([], AcState.mk st.cache (st.fetchCount + 1))

/-- Completion of a fetch goroutine for a given pfx whose evaluation
produced the given stream of values: a successful fetch stores its
candidate list under the pfx; a dropped fetch changes nothing
(src/main.go lines 368-384). -/
def fetchCompleteStep (st : AcState) (pfx : String) (stream : List Json) : AcState :=
  match suggestionFetch pfx stream with
  | some cs => AcState.mk ((pfx, cs) :: st.cache) st.fetchCount
  | none => st

/-- Events of the suggestion subsystem: a completion request with the
current text, or the completion of a fetch goroutine. -/
inductive AcEvent where
  | request (text : String)
  | fetchDone (pfx : String) (stream : List Json)

/-- Run a sequence of suggestion events from a state. -/
def acRun (history : List String) (st : AcState) : List AcEvent → AcState
  | [] => st
  | AcEvent.request t :: es => acRun history (autocompleteStep history t st).2 es
  | AcEvent.fetchDone p s :: es => acRun history (fetchCompleteStep st p s) es

/-- Concrete options: everything off, a history path set. -/
def wOptions : Options :=
  Options.mk false false false false false false false "hist"

/-- Concrete options with null-input mode on. -/
def wOptionsNull : Options := { wOptions with nullInput := true }

/-- Concrete document holding an empty JSON object. -/
def wDoc : Document := Document.mk "{}" wOptions

/-- Engine that succeeds and echoes the filter expression (the last
argument) as its output, so distinct requests have distinct results. -/
def cEngineEcho : Engine := fun args _ =>
  EngineOutcome.exited 0 (args.getLast?.getD "")

/-- Engine whose binary cannot be spawned. -/
def cEngineDead : Engine := fun _ _ => EngineOutcome.cannotStart

/-- Engine that always exits with status 2 and a fixed diagnostic. -/
def cEngineFail : Engine := fun _ _ =>
  EngineOutcome.exited 2 "engine diagnostic"

/-- The display as createApp builds it: all panes empty, neutral style. -/
def initDisplay : DisplayState :=
  DisplayState.mk "" "" "" InputStyle.neutral

/-- Concrete file system with two readable files. -/
def wfs : String → Option String := fun n =>
  if n = "a.json" then some "A" else if n = "b.json" then some "B" else none

/-- A stream of two object values with different key sets, as the engine
produces for a pfx selecting heterogeneous values. -/
def cStream : List Json :=
  [Json.obj [("a", Json.null)], Json.obj [("b", Json.null)]]

/-- A stream of one object value with keys a and b (listed unsorted). -/
def wStream : List Json := [Json.obj [("b", Json.null), ("a", Json.null)]]

/-- A stream of one object value with the single key k. -/
def wStreamK : List Json := [Json.obj [("k", Json.null)]]

/-- A successful evaluation applies its output and the neutral style. -/
theorem onFilterChanged_ok (d : Document) (engine : Engine) (text out : String)
    (st : DisplayState) (h : d.Filter text engine = Except.ok out) :
    onFilterChanged d engine text st =
      ({ st with errorText := "", inputStyle := InputStyle.neutral, output := out },
       ProcessStatus.running) := by
  unfold onFilterChanged
  rw [h]

/-- An engine that can never be spawned makes every evaluation return
spawnError. -/
theorem filter_spawnError (d : Document) (engine : Engine) (filt : String)
    (hdead : ∀ a i, engine a i = EngineOutcome.cannotStart) :
    d.Filter filt engine = Except.error FilterError.spawnError := by
  unfold Document.Filter
  rw [hdead]

/-- C2: a failing evaluation leaves the output pane (and the input pane)
exactly as they were and marks the input field with the error style; for
every document, engine behavior, filter text and prior display state. -/
theorem C2_failurePreservesOutput (d : Document) (engine : Engine)
    (text : String) (st : DisplayState) (e : FilterError)
    (h : d.Filter text engine = Except.error e) :
    (onFilterChanged d engine text st).1.output = st.output ∧
    (onFilterChanged d engine text st).1.inputPane = st.inputPane ∧
    (onFilterChanged d engine text st).1.inputStyle = InputStyle.error := by
  unfold onFilterChanged
  rw [h]
  cases e <;> exact ⟨rfl, rfl, rfl⟩

/-- C2 witness: concrete failing evaluation on the concrete document. -/
theorem C2_witness :
    (onFilterChanged wDoc cEngineFail ".bad" initDisplay).1.output =
      initDisplay.output := by
  exact (C2_failurePreservesOutput wDoc cEngineFail ".bad" initDisplay
    (FilterError.exitError 2 "engine diagnostic") rfl).1

/-- C5: when the engine exits non-zero, Filter returns an exitError whose
diagnostic is the combined output verbatim; when it exits zero, Filter
returns that output as the success value. -/
theorem C5_filterVerbatim (d : Document) (engine : Engine) (filt out : String)
    (s : Nat) (h : engine (d.options.ToSlice ++ [filt]) d.input =
      EngineOutcome.exited s out) :
    (s ≠ 0 → d.Filter filt engine = Except.error (FilterError.exitError s out)) ∧
    (s = 0 → d.Filter filt engine = Except.ok out) := by
  unfold Document.Filter
  rw [h]
  constructor
  · intro hs
    simp [hs]
  · intro hs
    simp [hs]

/-- C5 witness: the concrete failing engine yields its diagnostic
verbatim. -/
theorem C5_witness :
    wDoc.Filter ".x" cEngineFail =
      Except.error (FilterError.exitError 2 "engine diagnostic") := by
  exact (C5_filterVerbatim wDoc cEngineFail ".x" "engine diagnostic" 2 rfl).1
    (by decide)

/-- C8: with empty filter text the completion request returns the whole
history when it is non-empty and the empty list otherwise, and in both
cases leaves the suggestion state (cache and fetch count) unchanged. -/
theorem C8_emptyTextHistory (history : List String) (st : AcState) :
    autocompleteStep history "" st =
      ((if history = [] then [] else history), st) := by
  have hdot : lastDotIndex "" = none := rfl
  cases history with
  | nil => simp [autocompleteStep, hdot]
  | cons a l => simp [autocompleteStep]

/-- C9: in null-input mode Read succeeds immediately with the empty input
text, for every file system, standard input and argument list. -/
theorem C9_nullInputRead (o : Options) (fs : String → Option String)
    (stdin : Option String) (args : List String) (ho : o.nullInput = true) :
    Document.Read (Document.mk "" o) fs stdin args =
      Except.ok (Document.mk "" o) := by
  unfold Document.Read
  simp [ho]

/-- C9 witness: null-input options with a file argument present and data
piped on standard input. -/
theorem C9_witness :
    Document.Read (Document.mk "" wOptionsNull) wfs (some "{}") ["a.json"] =
      Except.ok (Document.mk "" wOptionsNull) := by
  exact C9_nullInputRead wOptionsNull wfs (some "{}") ["a.json"] rfl

/-- C3 counterexample: with an engine that cannot be spawned, an
evaluation issued from the interactive loop does NOT terminate the
process (the callback handles the error like an evaluation failure). -/
theorem C3_counterexample :
    (onFilterChanged wDoc cEngineDead ".x" initDisplay).2 ≠
      ProcessStatus.exitedFatal := by
  decide

/-- C3 amended: a spawn failure is fatal on the startup evaluation path
(log.Fatalln), but an evaluation issued during the interactive loop
leaves the process running, merely setting the error style and leaving
the output pane unchanged with no diagnostic shown. -/
theorem C3_spawnFatalOnlyAtStartup (d : Document) (engine : Engine)
    (filt text : String) (st : DisplayState)
    (hdead : ∀ a i, engine a i = EngineOutcome.cannotStart) :
    (startupRender d engine filt st).2 = ProcessStatus.exitedFatal ∧
    (onFilterChanged d engine text st).2 = ProcessStatus.running ∧
    (onFilterChanged d engine text st).1.output = st.output ∧
    (onFilterChanged d engine text st).1.errorText = "" := by
  have hs := filter_spawnError d engine "." hdead
  have ht := filter_spawnError d engine text hdead
  unfold startupRender onFilterChanged
  rw [hs, ht]
  exact ⟨rfl, rfl, rfl, rfl⟩

/-- C3 witness: the dead engine at the concrete document. -/
theorem C3_witness :
    (startupRender wDoc cEngineDead "." initDisplay).2 =
      ProcessStatus.exitedFatal ∧
    (onFilterChanged wDoc cEngineDead ".y" initDisplay).2 =
      ProcessStatus.running := by
  have h := C3_spawnFatalOnlyAtStartup wDoc cEngineDead "." ".y" initDisplay
    (fun _ _ => rfl)
  exact ⟨h.1, h.2.1⟩

/-- C1 counterexample: [1, 0] is a legal execution order of the two
queued updates (a permutation of the issue order), and under it the final
displayed output is the result of the FIRST-issued request R1 ("t1"),
not that of R2 ("t2") — the claimed property fails and no result is
discarded by any sequence-number check. -/
theorem C1_counterexample :
    List.Perm [1, 0] [0, 1] ∧
    (runSchedule wDoc cEngineEcho ["t1", "t2"] [1, 0] initDisplay).output = "t1" ∧
    (runSchedule wDoc cEngineEcho ["t1", "t2"] [0, 1] initDisplay).output = "t2" ∧
    ("t1" : String) ≠ "t2" := by
  refine ⟨by decide, rfl, rfl, by decide⟩

/-- C1 amended: the code keeps no sequence numbers; each request's
evaluation and display update run as one queued closure on the UI loop,
and the displayed result after both complete is simply that of the
closure that runs LAST.  When the closures run in issue order the final
output is the later request R2, but when they are enqueued out of order
the final output is the earlier request R1. -/
theorem C1_lastWriterWins (d : Document) (engine : Engine)
    (t1 t2 o1 o2 : String) (st : DisplayState)
    (h1 : d.Filter t1 engine = Except.ok o1)
    (h2 : d.Filter t2 engine = Except.ok o2) :
    (runSchedule d engine [t1, t2] [0, 1] st).output = o2 ∧
    (runSchedule d engine [t1, t2] [1, 0] st).output = o1 := by
  constructor
  · show (runSchedule d engine [t1, t2] [1]
      (onFilterChanged d engine t1 st).1).output = o2
    rw [onFilterChanged_ok d engine t1 o1 st h1]
    show (onFilterChanged d engine t2 _).1.output = o2
    rw [onFilterChanged_ok d engine t2 o2 _ h2]
  · show (runSchedule d engine [t1, t2] [0]
      (onFilterChanged d engine t2 st).1).output = o1
    rw [onFilterChanged_ok d engine t2 o2 st h2]
    show (onFilterChanged d engine t1 _).1.output = o1
    rw [onFilterChanged_ok d engine t1 o1 _ h1]

/-- C1 witness: the amended theorem at the concrete echo engine. -/
theorem C1_witness :
    (runSchedule wDoc cEngineEcho ["ta", "tb"] [1, 0] initDisplay).output = "ta" := by
  exact (C1_lastWriterWins wDoc cEngineEcho "ta" "tb" "ta" "tb" initDisplay
    rfl rfl).2

/-- Appending an element makes contains find it. -/
theorem contains_append_self (h : List String) (s : String) :
    contains (h ++ [s]) s = true := by
  induction h with
  | nil => simp [contains]
  | cons a l ih =>
    by_cases hx : s = a <;> simp [contains, hx, ih]

/-- Appending a different element does not change a membership test. -/
theorem contains_append_ne (h : List String) (s t : String) (hne : t ≠ s) :
    contains (h ++ [s]) t = contains h t := by
  induction h with
  | nil => simp [contains, hne]
  | cons a l ih =>
    by_cases hx : t = a <;> simp [contains, hx, ih]

/-- A negative membership test means the element is absent. -/
theorem contains_eq_false_iff (h : List String) (s : String) :
    contains h s = false ↔ s ∉ h := by
  induction h with
  | nil => simp [contains]
  | cons a l ih =>
    by_cases hx : s = a <;> simp [contains, hx, ih]

/-- C7: the commit path appends exactly when the expression is non-empty
and not already contained; committing the same new string twice in a row
stores it once (one occurrence), and committing two different new strings
stores both, in issue order. -/
theorem C7_commitDedup (h : List String) (s t : String)
    (hs : s ≠ "") (ht : t ≠ "") (hst : s ≠ t)
    (hcs : contains h s = false) (hct : contains h t = false) :
    (∀ (g : List String) (u : String),
        u = "" ∨ contains g u = true → commitHistory g u = g) ∧
    commitHistory (commitHistory h s) s = h ++ [s] ∧
    (commitHistory (commitHistory h s) s).count s = 1 ∧
    commitHistory (commitHistory h s) t = h ++ [s, t] := by
  have h1 : commitHistory h s = h ++ [s] := by
    simp [commitHistory, hs, hcs]
  refine ⟨?_, ?_, ?_, ?_⟩
  · intro g u hu
    rcases hu with hu | hu <;> simp [commitHistory, hu]
  · rw [h1]
    simp [commitHistory, contains_append_self]
  · rw [h1]
    have h2 : commitHistory (h ++ [s]) s = h ++ [s] := by
      simp [commitHistory, contains_append_self]
    rw [h2, List.count_append]
    have h0 : h.count s = 0 :=
      List.count_eq_zero.mpr ((contains_eq_false_iff h s).mp hcs)
    simp [h0]
  · rw [h1]
    have h3 : contains (h ++ [s]) t = false := by
      rw [contains_append_ne h s t (Ne.symm hst)]
      exact hct
    simp [commitHistory, ht, h3]

/-- C7 witness: committing ".a" twice then ".b" from a history holding
only "x". -/
theorem C7_witness :
    commitHistory (commitHistory ["x"] ".a") ".a" = ["x", ".a"] ∧
    commitHistory (commitHistory ["x"] ".a") ".b" = ["x", ".a", ".b"] := by
  have h := C7_commitDedup ["x"] ".a" ".b" (by decide) (by decide) (by decide)
    (by decide) (by decide)
  exact ⟨h.2.1, h.2.2.2⟩

/-- Reading a non-empty file list ends with the contents of the last
file, provided every earlier file is readable. -/
theorem readFiles_append_last (fs : String → Option String) (lastF c : String)
    (hlast : fs lastF = some c) :
    ∀ (init : List String) (d : Document),
      (∀ a ∈ init, (fs a).isSome = true) →
      readFiles fs d (init ++ [lastF]) = Except.ok (Document.mk c d.options) := by
  intro init
  induction init with
  | nil =>
    intro d _
    simp [readFiles, FromFile, hlast]
  | cons a l ih =>
    intro d hall
    have ha : (fs a).isSome = true := hall a (by simp)
    obtain ⟨ca, hca⟩ := Option.isSome_iff_exists.mp ha
    simp only [List.cons_append, readFiles, FromFile, hca]
    exact ih (Document.mk ca d.options) (fun x hx => hall x (by simp [hx]))

/-- C10: with null-input off and several readable file arguments, Read
succeeds and the resulting input text is the contents of the LAST file
alone — each file read overwrites the previous contents. -/
theorem C10_lastFileWins (o : Options) (inp : String)
    (fs : String → Option String) (stdin : Option String)
    (init : List String) (lastF c : String)
    (ho : o.nullInput = false)
    (hall : ∀ a ∈ init, (fs a).isSome = true)
    (hlast : fs lastF = some c) :
    Document.Read (Document.mk inp o) fs stdin (init ++ [lastF]) =
      Except.ok (Document.mk c o) := by
  have h := readFiles_append_last fs lastF c hlast init (Document.mk inp o) hall
  unfold Document.Read
  cases init with
  | nil => simpa [ho] using h
  | cons a l => simpa [ho] using h

/-- C10 witness: two concrete files; the document ends with the second
file contents "B", not "A" and not a concatenation. -/
theorem C10_witness :
    Document.Read (Document.mk "" wOptions) wfs none ["a.json", "b.json"] =
      Except.ok (Document.mk "B" wOptions) := by
  exact C10_lastFileWins wOptions "" wfs none ["a.json"] "b.json" "B" rfl
    (by decide) (by decide)

/-- The character-list order is irreflexive. -/
theorem charListLtB_irrefl (l : List Char) : charListLtB l l = false := by
  induction l with
  | nil => rfl
  | cons a as ih => simp [charListLtB, ih]

/-- The string order is irreflexive. -/
theorem strLtB_irrefl (s : String) : strLtB s s = false :=
  charListLtB_irrefl s.toList

/-- The key-list order is irreflexive. -/
theorem keyListLt_irrefl (l : List String) : keyListLt l l = false := by
  induction l with
  | nil => rfl
  | cons a as ih => simp [keyListLt, strLtB_irrefl, ih]

/-- A homogeneous stream maps to a replicated key list. -/
theorem mapKeys_const (ks : List String) :
    ∀ (stream : List Json), (∀ v ∈ stream, jqKeys v = some ks) →
      mapKeys stream = some (List.replicate stream.length ks) := by
  intro stream
  induction stream with
  | nil => intro _; rfl
  | cons v vs ih =>
    intro hall
    have hv : jqKeys v = some ks := hall v (by simp)
    have hvs := ih (fun x hx => hall x (by simp [hx]))
    simp [mapKeys, hv, hvs, List.replicate_succ]

/-- Sorting and deduplicating copies of one key list gives that list. -/
theorem sortDedupKeyLists_replicate (ks : List String) :
    ∀ (n : Nat), sortDedupKeyLists (List.replicate (n + 1) ks) = [ks] := by
  intro n
  induction n with
  | zero => simp [sortDedupKeyLists, insertKeyList]
  | succ m ih =>
    have step : sortDedupKeyLists (List.replicate (m + 1 + 1) ks) =
        insertKeyList ks (sortDedupKeyLists (List.replicate (m + 1) ks)) := by
      simp [sortDedupKeyLists, List.replicate_succ]
    rw [step, ih]
    simp [insertKeyList, keyListLt_irrefl]

/-- Union with a superset is absorbed. -/
theorem union_of_subset (l2 : List String) :
    ∀ (l1 : List String), (∀ a ∈ l1, a ∈ l2) → l1 ∪ l2 = l2 := by
  intro l1
  induction l1 with
  | nil => intro _; simp
  | cons a l ih =>
    intro hall
    rw [List.cons_union, ih (fun x hx => hall x (by simp [hx]))]
    exact List.insert_of_mem (hall a (by simp))

/-- Deduplicating the concatenation of copies of a duplicate-free list
gives the list back. -/
theorem dedup_flatten_replicate (ks : List String) (hd : ks.dedup = ks) :
    ∀ (n : Nat), (List.replicate (n + 1) ks).flatten.dedup = ks := by
  intro n
  induction n with
  | zero => simpa using hd
  | succ m ih =>
    have step : (List.replicate (m + 1 + 1) ks).flatten =
        ks ++ (List.replicate (m + 1) ks).flatten := by
      simp [List.replicate_succ]
    rw [step, List.dedup_append, ih]
    exact union_of_subset ks ks (fun a ha => ha)

/-- C4 counterexample: a stream of two object values with key sets a and
b.  The code derives only the first distinct key shape, producing the
single candidate "x.a", while the claimed derivation (deduplicated keys
of every value) would produce both "x.a" and "x.b". -/
theorem C4_counterexample :
    suggestionFetch "x" cStream = some ["x.a"] ∧
    specSuggestionFetch "x" cStream = some ["x.a", "x.b"] ∧
    suggestionFetch "x" cStream ≠ specSuggestionFetch "x" cStream := by
  refine ⟨by decide, by decide, by decide⟩

/-- C4 amended: for a stream of values that all share one key list ks,
the fetch computes exactly ks (the unique-then-first step picks the
single distinct key shape), builds one candidate per key as
pfx ++ "." ++ key, and the completing fetch stores that candidate list in
the cache under the pfx without spawning anything further; in this
homogeneous case (and only then, by the counterexample) the result
agrees with the claimed deduplicated-keys-of-every-value derivation. -/
theorem C4_fetchFirstShape (pfx : String) (stream : List Json)
    (ks : List String) (st : AcState)
    (hne : stream ≠ []) (hall : ∀ v ∈ stream, jqKeys v = some ks) :
    suggestionFetch pfx stream = some (buildCandidates pfx ks) ∧
    (fetchCompleteStep st pfx stream).cache =
      (pfx, buildCandidates pfx ks) :: st.cache ∧
    (fetchCompleteStep st pfx stream).fetchCount = st.fetchCount ∧
    (ks.dedup = ks →
      specSuggestionFetch pfx stream = suggestionFetch pfx stream) := by
  have hmap := mapKeys_const ks stream hall
  obtain ⟨v, vs, rfl⟩ : ∃ v vs, stream = v :: vs := by
    cases stream with
    | nil => exact absurd rfl hne
    | cons v vs => exact ⟨v, vs, rfl⟩
  have hlen : (v :: vs).length = vs.length + 1 := by simp
  have hfk : fetchKeys (v :: vs) = some ks := by
    unfold fetchKeys
    rw [hmap, hlen]
    show some ((sortDedupKeyLists (List.replicate (vs.length + 1) ks)).headD []) =
      some ks
    rw [sortDedupKeyLists_replicate ks vs.length]
    rfl
  have hsf : suggestionFetch pfx (v :: vs) = some (buildCandidates pfx ks) := by
    unfold suggestionFetch
    rw [hfk]
    rfl
  have hstore : fetchCompleteStep st pfx (v :: vs) =
      AcState.mk ((pfx, buildCandidates pfx ks) :: st.cache) st.fetchCount := by
    unfold fetchCompleteStep
    rw [hsf]
  refine ⟨hsf, by rw [hstore], by rw [hstore], ?_⟩
  intro hd
  have hspec : specFetchKeys (v :: vs) = some ks := by
    unfold specFetchKeys
    rw [hmap, hlen]
    show some (List.dedup (List.flatten (List.replicate (vs.length + 1) ks))) =
      some ks
    rw [dedup_flatten_replicate ks hd vs.length]
  unfold specSuggestionFetch
  rw [hspec, hsf]
  rfl

/-- C4 witness: a one-object stream with keys b and a yields the sorted
candidates p.a and p.b, and the store places them in the cache. -/
theorem C4_witness :
    suggestionFetch "p" wStream = some ["p.a", "p.b"] := by
  have h := C4_fetchFirstShape "p" wStream ["a", "b"] (AcState.mk [] 0)
    (by simp [wStream]) (by decide)
  exact h.1.trans (by decide)

/-- C6 counterexample: two completion requests for the same uncached
prefix arriving before any fetch completes each spawn a fetch goroutine —
two fetches in total, contradicting the claimed "at most one fetch". -/
theorem C6_counterexample :
    (acRun [] (AcState.mk [] 0)
        [AcEvent.request ".a", AcEvent.request ".a"]).fetchCount = 2 ∧
    ¬ (acRun [] (AcState.mk [] 0)
        [AcEvent.request ".a", AcEvent.request ".a"]).fetchCount ≤ 1 := by
  refine ⟨rfl, by decide⟩

/-- C6 amended: a completion request whose pfx is already cached returns
the stored candidate list with the state unchanged (no new fetch); a
request for an uncached pfx returns nothing and spawns one fetch; and
when the second request arrives AFTER that fetch has completed and
stored its result, the second request is served from the cache, so the
two requests trigger exactly one fetch in total — duplicate fetches
arise only when the second request precedes the completion of the
first fetch. -/
theorem C6_cacheHitNoRefetch (history : List String) (text pfx : String)
    (pos : Nat) (st : AcState) (stream : List Json) (cs : List String)
    (hguard : ¬(text = "" ∧ history ≠ []))
    (hdot : lastDotIndex text = some pos)
    (hpfx : pfx = takePfx text pos)
    (hmiss : List.lookup pfx st.cache = none)
    (hfetch : suggestionFetch pfx stream = some cs) :
    (∀ (st2 : AcState) (entries : List String),
        List.lookup pfx st2.cache = some entries →
        autocompleteStep history text st2 = (entries, st2)) ∧
    autocompleteStep history text st =
      ([], AcState.mk st.cache (st.fetchCount + 1)) ∧
    autocompleteStep history text
        (fetchCompleteStep (autocompleteStep history text st).2 pfx stream) =
      (cs, fetchCompleteStep (autocompleteStep history text st).2 pfx stream) ∧
    (fetchCompleteStep (autocompleteStep history text st).2 pfx stream).fetchCount =
      st.fetchCount + 1 := by
  subst hpfx
  have stepAt : ∀ (st2 : AcState) (entries : List String),
      List.lookup (takePfx text pos) st2.cache = some entries →
      autocompleteStep history text st2 = (entries, st2) := by
    intro st2 entries hhit
    simp only [autocompleteStep, if_neg hguard, hdot, hhit]
  have hB : autocompleteStep history text st =
      ([], AcState.mk st.cache (st.fetchCount + 1)) := by
    simp only [autocompleteStep, if_neg hguard, hdot, hmiss]
  have hC : fetchCompleteStep (autocompleteStep history text st).2
        (takePfx text pos) stream =
      AcState.mk ((takePfx text pos, cs) :: st.cache) (st.fetchCount + 1) := by
    rw [hB]
    unfold fetchCompleteStep
    rw [hfetch]
  refine ⟨stepAt, hB, ?_, ?_⟩
  · rw [hC]
    exact stepAt _ cs (by simp [List.lookup])
  · rw [hC]

/-- C6 witness: a request for text "a.b" (pfx "a") on an empty cache, the
fetch completing with one object of key k, then a second request served
from the cache with exactly one fetch counted. -/
theorem C6_witness :
    (autocompleteStep [] "a.b"
        (fetchCompleteStep (autocompleteStep [] "a.b" (AcState.mk [] 0)).2
          "a" wStreamK)).1 = ["a.k"] ∧
    (fetchCompleteStep (autocompleteStep [] "a.b" (AcState.mk [] 0)).2
        "a" wStreamK).fetchCount = 1 := by
  have h := C6_cacheHitNoRefetch [] "a.b" "a" 1 (AcState.mk [] 0) wStreamK
    ["a.k"] (by decide) (by decide) (by decide) (by decide) (by decide)
  exact ⟨by rw [h.2.2.1], h.2.2.2⟩

end Ijq
